import Mathlib

/-!
Shallow embedding of `src/pages/roleMatrix.tsx`: the RBAC data model, the
permission resolver (permission index, user role lookup, effective action
grants, field unions) and the two mutating workflows (action-toggle apply,
field-editor save), together with a server model for the permissions
endpoints taken from the specification of the external API.
-/

namespace RoleMatrix

/-- Embeds the `Permission` record type of `roleMatrix.tsx`.  `id` is
optional (server-assigned), `visibleFields` and `editableFields` are
optional arrays in the source type. -/
structure Permission where
  id : Option Nat
  roleId : Nat
  moduleId : Nat
  actions : List String
  visibleFields : Option (List String)
  editableFields : Option (List String)
deriving DecidableEq, Repr

/-- Embeds the `UserRole` record type (a user-to-role link). -/
structure UserRole where
  id : Option Nat
  userId : Nat
  roleId : Nat
deriving DecidableEq, Repr

/-- Embeds the `Role` record type. -/
structure Role where
  id : Nat
  name : String
deriving DecidableEq, Repr

/-- Embeds the possible runtime shapes of `Module.fields` in the source:
`string[] | string | undefined`. -/
inductive ModuleFields where
  | arr (fields : List String)
  | str (s : String)
  | undef
deriving DecidableEq, Repr

/-- Embeds the `Module` record type. -/
structure Module where
  id : Nat
  name : String
  fields : ModuleFields
deriving DecidableEq, Repr

/-- The key predicate of the `permMap` index: the JS map key is the string
`"<roleId>-<moduleId>"`, which on natural-number ids is in bijection with
the pair, so the embedding matches on the pair directly. -/
def permKeyMatch (roleId moduleId : Nat) (p : Permission) : Bool :=
  p.roleId == roleId && p.moduleId == moduleId

/-- Embeds `permMap` (roleMatrix.tsx lines 78-82): `permissions.forEach`
over a JS `Map.set` means the last permission with a given
(roleId, moduleId) key wins, i.e. the last matching element of the list. -/
def permMap (permissions : List Permission) (roleId moduleId : Nat) : Option Permission :=
  permissions.reverse.find? (permKeyMatch roleId moduleId)

/-- Embeds `userRoleIds` (lines 85-86). -/
def userRoleIds (userRoles : List UserRole) (userId : Nat) : List Nat :=
  (userRoles.filter (fun ur => ur.userId == userId)).map (fun ur => ur.roleId)

/-- Embeds `userRolesObjects` (lines 89-92). -/
def userRolesObjects (userRoles : List UserRole) (roles : List Role) (userId : Nat) : List Role :=
  let ids := userRoleIds userRoles userId
  roles.filter (fun r => ids.contains r.id)

/-- Embeds `userHasAction` (lines 95-102): the for-loop with early
`return true` over the user's role ids.  In the source a defensive
`perm && perm.actions` guard precedes the `includes` test; in the embedding
`actions` is always a list, so the guard is the `some` case of the match. -/
def userHasAction (userRoles : List UserRole) (permissions : List Permission)
    (userId moduleId : Nat) (action : String) : Bool :=
  (userRoleIds userRoles userId).any (fun rid =>
    match permMap permissions rid moduleId with
    | some perm => perm.actions.contains action
    | none => false)

/-- Insertion into a JS `Set<string>`: a no-op when the element is present,
appended at the end (insertion order) otherwise. -/
def setAdd (s : List String) (x : String) : List String :=
  if s.contains x then s else s ++ [x]

/-- Folds `setAdd` over a list, embedding `xs.forEach((f) => set.add(f))`. -/
def setAddAll (s : List String) (xs : List String) : List String :=
  xs.foldl setAdd s

/-- The pair of field lists returned by `unionFieldsForUserModule`. -/
structure FieldUnion where
  visible : List String
  editable : List String
deriving DecidableEq, Repr

/-- One iteration of the `roleIds.forEach` body of
`unionFieldsForUserModule` (lines 109-114): skip a missing permission,
otherwise add its field lists (`|| []` becomes `Option.getD []`) to the
accumulated sets. -/
def unionStep (permissions : List Permission) (moduleId : Nat) (acc : FieldUnion)
    (rid : Nat) : FieldUnion :=
  match permMap permissions rid moduleId with
  | none => acc
  | some p =>
      { visible := setAddAll acc.visible (p.visibleFields.getD []),
        editable := setAddAll acc.editable (p.editableFields.getD []) }

/-- Embeds `unionFieldsForUserModule` (lines 105-116): accumulates the
`visibleFields` and `editableFields` of every permission found for the
user's roles into two insertion-ordered sets. -/
def unionFieldsForUserModule (userRoles : List UserRole) (permissions : List Permission)
    (userId moduleId : Nat) : FieldUnion :=
  (userRoleIds userRoles userId).foldl (unionStep permissions moduleId)
    { visible := [], editable := [] }

/-- A network mutation issued by a workflow: a `POST /api/permissions`
with a JSON body, or a `PUT /api/permissions/:id` with a JSON body.  The
`PUT` carries the id taken from the targeted record. -/
inductive Request where
  | post (payload : Permission)
  | put (permId : Option Nat) (payload : Permission)
deriving DecidableEq, Repr

/-- The role a request is about (the `roleId` field of its JSON body). -/
def reqRole : Request → Nat
  | .post payload => payload.roleId
  | .put _ payload => payload.roleId

/-- Embeds the actions-diffing of the apply loop (lines 182-185):
`slice`, conditional `push`, conditional `filter`. -/
def newActionsFor (perm : Permission) (targetAction : String) (enabled : Bool) : List String :=
  let has := perm.actions.contains targetAction
  if enabled && !has then perm.actions ++ [targetAction]
  else if !enabled && has then perm.actions.filter (fun a => a != targetAction)
  else perm.actions

/-- Embeds one iteration of the apply loop of `applyActionModal`
(lines 155-198): lookup in `permMap`; with no existing row, a `POST` with
`actions = [targetAction]` and empty field lists when enabled and nothing
when disabled; with an existing row, a `PUT` of the whole record with the
diffed actions. -/
def applyRoleReqs (permissions : List Permission) (moduleId : Nat) (targetAction : String)
    (roleId : Nat) (enabled : Bool) : List Request :=
  match permMap permissions roleId moduleId with
  | none =>
      if enabled then
        [Request.post
          { id := none, roleId := roleId, moduleId := moduleId,
            actions := [targetAction], visibleFields := some [], editableFields := some [] }]
      else []
  | some perm =>
      [Request.put perm.id { perm with actions := newActionsFor perm targetAction enabled }]

/-- The full request sequence of the apply loop over the selection entries
(`Object.entries(actionModal.selectedRoles)`). -/
def applyReqs (permissions : List Permission) (moduleId : Nat) (targetAction : String) :
    List (Nat × Bool) → List Request
  | [] => []
  | re :: rest =>
      applyRoleReqs permissions moduleId targetAction re.1 re.2 ++
        applyReqs permissions moduleId targetAction rest

/-- Embeds the `actionModal` state object (lines 44-53).  `selectedRoles`
is the entry list of the `Record<number, boolean>`; JS object keys are
unique, so its role ids are pairwise distinct. -/
structure ActionModal where
  isOpen : Bool
  userId : Option Nat
  moduleId : Option Nat
  action : Option String
  selectedRoles : List (Nat × Bool)
  userRolesList : List Role
deriving DecidableEq, Repr

/-- The closed/reset action modal state (lines 202-209). -/
def closedActionModal : ActionModal :=
  { isOpen := false, userId := none, moduleId := none, action := none,
    selectedRoles := [], userRolesList := [] }

/-- JS falsiness of a nullable number: `null` and `0` are falsy. -/
def falsyNum : Option Nat → Bool
  | none => true
  | some n => n == 0

/-- JS falsiness of a nullable string: `null` and the empty string are
falsy. -/
def falsyStr : Option String → Bool
  | none => true
  | some s => s == ""

/-- Runs a sequence of fetches whose outcomes are given by the oracle
`fails`.  When `caught` is true every fetch is wrapped in a try/catch that
logs and continues (the apply loop, lines 169-196); when false a rejected
fetch throws out of the enclosing async function, aborting the remaining
steps (the field-editor save, lines 252-273, which has no try/catch).
Returns the attempted requests and whether the code after the sequence was
reached. -/
def runSteps (caught : Bool) (fails : Nat → Bool) : Nat → List Request → List Request × Bool
  | _, [] => ([], true)
  | i, r :: rest =>
      if fails i && !caught then ([r], false)
      else
        let (att, done) := runSteps caught fails (i + 1) rest
        (r :: att, done)

/-- Result of running `applyActionModal`: the requests attempted, whether
`loadAll` was reached, and the final modal state. -/
structure ApplyRun where
  attempted : List Request
  reloaded : Bool
  modal : ActionModal
deriving DecidableEq, Repr

/-- Embeds `applyActionModal` (lines 145-210) with a fetch-failure oracle:
the falsiness guard on `userId`, `moduleId` and `action` returns early with
no request, no reload and the modal left as it was; otherwise the per-role
loop runs (each fetch in try/catch), then `loadAll` and the modal reset. -/
def applyActionModalRun (permissions : List Permission) (am : ActionModal)
    (fails : Nat → Bool) : ApplyRun :=
  if falsyNum am.userId || falsyNum am.moduleId || falsyStr am.action then
    { attempted := [], reloaded := false, modal := am }
  else
    let (att, done) :=
      runSteps true fails 0
        (applyReqs permissions (am.moduleId.getD 0) (am.action.getD "") am.selectedRoles)
    { attempted := att, reloaded := done,
      modal := if done then closedActionModal else am }

/-- Embeds `openActionModal` (lines 119-142): `none` models the
no-roles alert path (no modal state change, no network call); otherwise the
opened modal with one selection boolean per user role, seeded from whether
the role currently grants the action. -/
def openActionModal (userRoles : List UserRole) (roles : List Role)
    (permissions : List Permission) (userId moduleId : Nat) (action : String) :
    Option ActionModal :=
  let userRolesObjs := userRolesObjects userRoles roles userId
  if userRolesObjs.isEmpty then none
  else
    some { isOpen := true, userId := some userId, moduleId := some moduleId,
           action := some action,
           selectedRoles := userRolesObjs.map (fun r =>
             (r.id,
              match permMap permissions r.id moduleId with
              | some p => p.actions.contains action
              | none => false)),
           userRolesList := userRolesObjs }

/-- Embeds the field normalization of `openFieldsEditor` (lines 221-230).
The platform JSON parser is abstracted as an oracle `parse` returning
`none` exactly when `JSON.parse` throws; `fields || "[]"` replaces a falsy
(empty or absent) string by the literal `"[]"` before parsing, and the
catch branch yields the empty list. -/
def normalizeFields (parse : String → Option (List String)) : ModuleFields → List String
  | .arr fs => fs
  | .str s => (parse (if s == "" then "[]" else s)).getD []
  | .undef => (parse "[]").getD []

/-- Embeds the `fieldsModal` state object (lines 33-41). -/
structure FieldsModal where
  isOpen : Bool
  permId : Option Nat
  moduleId : Option Nat
  roleId : Option Nat
  visibleFields : List String
  editableFields : List String
  allFields : List String
deriving DecidableEq, Repr

/-- Embeds `openFieldsEditor` (lines 213-241): the role edited is the
first user-role link of the user (`userRoles.find`); `none` models the
no-roles alert path.  Draft fields seed from the existing permission via
`?? []`, the permission id via `?? null`. -/
def openFieldsEditor (userRoles : List UserRole) (permissions : List Permission)
    (parse : String → Option (List String)) (userId : Nat) (moduleObj : Module) :
    Option FieldsModal :=
  match userRoles.find? (fun ur => ur.userId == userId) with
  | none => none
  | some rel =>
      let perm? := permMap permissions rel.roleId moduleObj.id
      some { isOpen := true,
             permId := perm?.bind (fun p => p.id),
             moduleId := some moduleObj.id,
             roleId := some rel.roleId,
             visibleFields := (perm?.bind (fun p => p.visibleFields)).getD [],
             editableFields := (perm?.bind (fun p => p.editableFields)).getD [],
             allFields := normalizeFields parse moduleObj.fields }

/-- The single mutation of `saveFieldsModal` (lines 248-274): a full-record
`PUT` with the new field lists when a permission for (roleId, moduleId)
exists (first match of `permissions.find`), else a `POST` with empty
actions.  The actions list of an existing record is carried over by the
object spread. -/
def saveReq (permissions : List Permission) (fm : FieldsModal) (moduleId roleId : Nat) :
    Request :=
  match permissions.find? (fun p => p.roleId == roleId && p.moduleId == moduleId) with
  | some existing =>
      Request.put existing.id
        { existing with visibleFields := some fm.visibleFields,
                        editableFields := some fm.editableFields }
  | none =>
      Request.post
        { id := none, roleId := roleId, moduleId := moduleId, actions := [],
          visibleFields := some fm.visibleFields, editableFields := some fm.editableFields }

/-- Result of running `saveFieldsModal`: the requests attempted, whether
`loadAll` was reached, and whether the modal was closed. -/
structure SaveRun where
  attempted : List Request
  reloaded : Bool
  closedModal : Bool
deriving DecidableEq, Repr

/-- Embeds `saveFieldsModal` (lines 243-277) with a fetch-failure oracle:
the falsiness guard on `moduleId` and `roleId` closes the modal with no
network call and no reload; otherwise the single mutation runs WITHOUT a
try/catch, so a rejected fetch aborts before `loadAll` and before the
modal is closed. -/
def saveFieldsModalRun (permissions : List Permission) (fm : FieldsModal)
    (fails : Nat → Bool) : SaveRun :=
  if falsyNum fm.moduleId || falsyNum fm.roleId then
    { attempted := [], reloaded := false, closedModal := true }
  else
    let (att, done) :=
      runSteps false fails 0 [saveReq permissions fm (fm.moduleId.getD 0) (fm.roleId.getD 0)]
    { attempted := att, reloaded := done, closedModal := done }

/-- Modelled from the spec: the external permissions API (spec sections 4.3
and 6), which is not part of this repository.  `POST /api/permissions`
creates the record with a fresh server-assigned id; `PUT
/api/permissions/:id` replaces the fields of the record with that id. -/
def serverStep (permissions : List Permission) (freshId : Nat) :
    Request → List Permission × Nat
  | .post payload => (permissions ++ [{ payload with id := some freshId }], freshId + 1)
  | .put pid payload =>
      (permissions.map (fun p => if p.id == pid then payload else p), freshId)

/-- Modelled from the spec: the server state after a sequence of requests. -/
def serverRun : List Permission → Nat → List Request → List Permission × Nat
  | permissions, freshId, [] => (permissions, freshId)
  | permissions, freshId, req :: rest =>
      serverRun (serverStep permissions freshId req).1
        (serverStep permissions freshId req).2 rest

/-- The list of server-assigned ids present in a snapshot. -/
def idsOf (permissions : List Permission) : List Nat :=
  permissions.filterMap (fun p => p.id)

/-- Well-formedness of a server snapshot, per the data-model invariants
(spec section 3): every record carries a server-assigned id, ids are
pairwise distinct, and the fresh-id counter is beyond every existing id. -/
def WellFormedPerms (permissions : List Permission) (freshId : Nat) : Prop :=
  (∀ p ∈ permissions, p.id.isSome = true) ∧
    (idsOf permissions).Nodup ∧
    (∀ i ∈ idsOf permissions, i < freshId)

/-- Key stability of a server state relative to the pre-apply snapshot:
any record sharing a server id with a snapshot record has the same
(roleId, moduleId) key.  This holds because `PUT` payloads keep the key of
the record they replace. -/
def KeyStable (perms0 cur : List Permission) : Prop :=
  ∀ p ∈ cur, ∀ q ∈ perms0, ∀ k : Nat, p.id = some k → q.id = some k →
    p.roleId = q.roleId ∧ p.moduleId = q.moduleId

/-- The row state the apply loop leaves behind for one selection entry:
with no pre-existing row, a disabled role still has no row and an enabled
role has a fresh row whose actions are exactly the toggled action; with a
pre-existing row `p`, the row becomes `p` with the diffed actions. -/
def roleOutcome (perms0 res : List Permission) (m : Nat) (a : String)
    (r : Nat) (e : Bool) : Prop :=
  match permMap perms0 r m with
  | none =>
      if e then ∃ p1, permMap res r m = some p1 ∧ p1.actions = [a]
      else permMap res r m = none
  | some p => permMap res r m = some { p with actions := newActionsFor p a e }

/-- The snapshot the client reloads after one apply pass: the server state
after the request sequence computed from `perms0`. -/
def firstApply (perms0 : List Permission) (fid m : Nat) (a : String)
    (sel : List (Nat × Bool)) : List Permission :=
  (serverRun perms0 fid (applyReqs perms0 m a sel)).1

/-- The snapshot after a second, identical apply pass run against the
reloaded snapshot. -/
def secondApply (perms0 : List Permission) (fid fid' m : Nat) (a : String)
    (sel : List (Nat × Bool)) : List Permission :=
  (serverRun (firstApply perms0 fid m a sel) fid'
    (applyReqs (firstApply perms0 fid m a sel) m a sel)).1

/-! ## Concrete fixtures used by the witness theorems -/

/-- A permission row granting `read` on module 1 to role 1. -/
def permFixture : Permission :=
  ⟨some 1, 1, 1, ["read"], none, none⟩

/-- A permission row for role 2, module 1, with a visible and an editable
field. -/
def permFixture2 : Permission :=
  ⟨some 1, 2, 1, [], some ["x"], some ["x"]⟩

/-- A user-role link: user 1 holds role 1. -/
def linkFixture : UserRole :=
  ⟨some 1, 1, 1⟩

/-- A concrete stand-in for the platform JSON parser: accepts only the
literal `"[]"`. -/
def jsonParseFixture : String → Option (List String) :=
  fun s => if s = "[]" then some [] else none

/-- An open action modal whose user id is the falsy number 0. -/
def amFixtureFalsy : ActionModal :=
  ⟨true, some 0, some 1, some "read", [(1, true)], []⟩

/-- An open fields modal whose role id is null. -/
def fmFixtureFalsy : FieldsModal :=
  ⟨true, none, some 1, none, [], [], []⟩

/-- An open fields modal for role 1 and module 1 with drafted field
lists. -/
def fmFixture : FieldsModal :=
  ⟨true, some 1, some 1, some 1, ["a"], ["b"], ["a", "b"]⟩

/-- An open action modal with nothing falsy: user 1, module 1, action
`read`, role 1 selected enabled. -/
def amFixture : ActionModal :=
  ⟨true, some 1, some 1, some "read", [(1, true)], []⟩

/-! ## Helper lemmas -/

theorem contains_iff_mem {l : List String} {s : String} : l.contains s = true ↔ s ∈ l := by
  simp [List.contains_iff_exists_mem_beq, beq_iff_eq]

theorem permMap_eq_some {permissions : List Permission} {r m : Nat} {p : Permission}
    (h : permMap permissions r m = some p) :
    p ∈ permissions ∧ p.roleId = r ∧ p.moduleId = m := by
  unfold permMap at h
  have hmem := List.mem_of_find?_eq_some h
  have hkey := List.find?_some h
  rw [List.mem_reverse] at hmem
  unfold permKeyMatch at hkey
  simp only [Bool.and_eq_true, beq_iff_eq] at hkey
  exact ⟨hmem, hkey.1, hkey.2⟩

theorem mem_setAdd {s : List String} {y x : String} :
    x ∈ setAdd s y ↔ x ∈ s ∨ x = y := by
  unfold setAdd
  by_cases h : s.contains y = true
  · rw [if_pos h]
    have hy : y ∈ s := contains_iff_mem.mp h
    constructor
    · exact Or.inl
    · rintro (hx | rfl)
      · exact hx
      · exact hy
  · rw [if_neg h]
    simp [List.mem_append]

theorem mem_setAddAll {xs : List String} :
    ∀ {s : List String} {x : String}, x ∈ setAddAll s xs ↔ x ∈ s ∨ x ∈ xs := by
  induction xs with
  | nil => intro s x; simp [setAddAll]
  | cons y ys ih =>
      intro s x
      show x ∈ setAddAll (setAdd s y) ys ↔ _
      rw [ih, mem_setAdd]
      simp [List.mem_cons]
      tauto

theorem mem_foldl_unionStep (permissions : List Permission) (m : Nat) (f : String) :
    ∀ (rids : List Nat) (acc : FieldUnion),
      (f ∈ (rids.foldl (unionStep permissions m) acc).visible ↔
        f ∈ acc.visible ∨ ∃ rid ∈ rids, ∃ p, permMap permissions rid m = some p ∧
          f ∈ p.visibleFields.getD []) ∧
      (f ∈ (rids.foldl (unionStep permissions m) acc).editable ↔
        f ∈ acc.editable ∨ ∃ rid ∈ rids, ∃ p, permMap permissions rid m = some p ∧
          f ∈ p.editableFields.getD [])
  | [], acc => by simp
  | rid :: rids, acc => by
      rw [List.foldl_cons]
      have ih := mem_foldl_unionStep permissions m f rids (unionStep permissions m acc rid)
      cases hpm : permMap permissions rid m with
      | none =>
          have hstep : unionStep permissions m acc rid = acc := by
            unfold unionStep; rw [hpm]
          rw [hstep] at ih
          rw [hstep]
          have hnot : ∀ p : Permission, permMap permissions rid m ≠ some p := by
            rw [hpm]; intro p hp; exact Option.noConfusion hp
          constructor
          · rw [ih.1]
            constructor
            · rintro (hx | ⟨r, hr, hrest⟩)
              · exact Or.inl hx
              · exact Or.inr ⟨r, List.mem_cons_of_mem _ hr, hrest⟩
            · rintro (hx | ⟨r, hr, p, hpmr, hf⟩)
              · exact Or.inl hx
              · rcases List.mem_cons.mp hr with rfl | hr2
                · exact absurd hpmr (hnot p)
                · exact Or.inr ⟨r, hr2, p, hpmr, hf⟩
          · rw [ih.2]
            constructor
            · rintro (hx | ⟨r, hr, hrest⟩)
              · exact Or.inl hx
              · exact Or.inr ⟨r, List.mem_cons_of_mem _ hr, hrest⟩
            · rintro (hx | ⟨r, hr, p, hpmr, hf⟩)
              · exact Or.inl hx
              · rcases List.mem_cons.mp hr with rfl | hr2
                · exact absurd hpmr (hnot p)
                · exact Or.inr ⟨r, hr2, p, hpmr, hf⟩
      | some p0 =>
          have hstep : unionStep permissions m acc rid =
              { visible := setAddAll acc.visible (p0.visibleFields.getD []),
                editable := setAddAll acc.editable (p0.editableFields.getD []) } := by
            unfold unionStep; rw [hpm]
          rw [hstep] at ih
          rw [hstep]
          constructor
          · rw [ih.1]
            simp only [mem_setAddAll]
            constructor
            · rintro ((hx | hp0) | ⟨r, hr, hrest⟩)
              · exact Or.inl hx
              · exact Or.inr ⟨rid, List.mem_cons_self .., p0, hpm, hp0⟩
              · exact Or.inr ⟨r, List.mem_cons_of_mem _ hr, hrest⟩
            · rintro (hx | ⟨r, hr, p, hpmr, hf⟩)
              · exact Or.inl (Or.inl hx)
              · rcases List.mem_cons.mp hr with rfl | hr2
                · rw [hpm] at hpmr
                  cases hpmr
                  exact Or.inl (Or.inr hf)
                · exact Or.inr ⟨r, hr2, p, hpmr, hf⟩
          · rw [ih.2]
            simp only [mem_setAddAll]
            constructor
            · rintro ((hx | hp0) | ⟨r, hr, hrest⟩)
              · exact Or.inl hx
              · exact Or.inr ⟨rid, List.mem_cons_self .., p0, hpm, hp0⟩
              · exact Or.inr ⟨r, List.mem_cons_of_mem _ hr, hrest⟩
            · rintro (hx | ⟨r, hr, p, hpmr, hf⟩)
              · exact Or.inl (Or.inl hx)
              · rcases List.mem_cons.mp hr with rfl | hr2
                · rw [hpm] at hpmr
                  cases hpmr
                  exact Or.inl (Or.inr hf)
                · exact Or.inr ⟨r, hr2, p, hpmr, hf⟩

theorem foldl_unionStep_of_none (permissions : List Permission) (m : Nat) :
    ∀ (rids : List Nat) (acc : FieldUnion),
      (∀ rid ∈ rids, permMap permissions rid m = none) →
      rids.foldl (unionStep permissions m) acc = acc
  | [], _, _ => rfl
  | rid :: rids, acc, h => by
      rw [List.foldl_cons]
      have hstep : unionStep permissions m acc rid = acc := by
        unfold unionStep; rw [h rid (List.mem_cons_self ..)]
      rw [hstep]
      exact foldl_unionStep_of_none permissions m rids acc
        (fun r hr => h r (List.mem_cons_of_mem _ hr))

theorem newActionsFor_filter (perm : Permission) (a : String) (e : Bool) :
    (newActionsFor perm a e).filter (fun x => x != a) =
      perm.actions.filter (fun x => x != a) := by
  unfold newActionsFor
  cases e <;> cases h : perm.actions.contains a <;>
    simp [h, List.filter_append, List.filter_filter, bne_self_eq_false]

theorem mem_newActionsFor (perm : Permission) (a : String) (e : Bool) :
    a ∈ newActionsFor perm a e ↔ e = true := by
  unfold newActionsFor
  cases e with
  | false =>
      cases h : perm.actions.contains a with
      | false =>
          have hnot : ¬ a ∈ perm.actions := by
            intro hmem
            have hc := contains_iff_mem.mpr hmem
            rw [h] at hc
            cases hc
          simp [h, hnot]
      | true =>
          simp [h, List.mem_filter]
  | true =>
      cases h : perm.actions.contains a with
      | false => simp [h]
      | true => simp [h, contains_iff_mem.mp h]

theorem reqRole_applyRoleReqs {permissions : List Permission} {m : Nat} {a : String}
    {r : Nat} {e : Bool} {q : Request} (hq : q ∈ applyRoleReqs permissions m a r e) :
    reqRole q = r := by
  unfold applyRoleReqs at hq
  cases hpm : permMap permissions r m with
  | none =>
      rw [hpm] at hq
      cases e with
      | true =>
          simp at hq
          subst hq
          rfl
      | false => simp at hq
  | some perm =>
      rw [hpm] at hq
      simp at hq
      subst hq
      show perm.roleId = r
      exact (permMap_eq_some hpm).2.1

theorem mem_applyReqs {permissions : List Permission} {m : Nat} {a : String} {q : Request} :
    ∀ {sel : List (Nat × Bool)}, q ∈ applyReqs permissions m a sel →
      ∃ re ∈ sel, q ∈ applyRoleReqs permissions m a re.1 re.2
  | [], hq => by cases hq
  | re :: rest, hq => by
      rw [show applyReqs permissions m a (re :: rest) =
            applyRoleReqs permissions m a re.1 re.2 ++ applyReqs permissions m a rest
          from rfl] at hq
      rcases List.mem_append.mp hq with h1 | h2
      · exact ⟨re, List.mem_cons_self .., h1⟩
      · obtain ⟨re2, hre2, hq2⟩ := mem_applyReqs h2
        exact ⟨re2, List.mem_cons_of_mem _ hre2, hq2⟩

theorem filter_reqRole_self {l : List Request} {r : Nat} (h : ∀ q ∈ l, reqRole q = r) :
    l.filter (fun q => reqRole q == r) = l := by
  induction l with
  | nil => rfl
  | cons x xs ih =>
      rw [List.filter_cons]
      have hx : (reqRole x == r) = true := beq_iff_eq.mpr (h x (List.mem_cons_self ..))
      rw [if_pos hx, ih (fun q hq => h q (List.mem_cons_of_mem _ hq))]

theorem filter_applyReqs_not_mem {permissions : List Permission} {m : Nat} {a : String}
    {sel : List (Nat × Bool)} {r : Nat} (hr : ¬ r ∈ sel.map Prod.fst) :
    (applyReqs permissions m a sel).filter (fun q => reqRole q == r) = [] := by
  rw [List.filter_eq_nil_iff]
  intro q hq
  obtain ⟨re, hre, hq2⟩ := mem_applyReqs hq
  have hrole : reqRole q = re.1 := reqRole_applyRoleReqs hq2
  have hne : re.1 ≠ r := by
    intro heq
    exact hr (heq ▸ List.mem_map_of_mem Prod.fst hre)
  simp [hrole, hne]

theorem applyReqs_filter {permissions : List Permission} {m : Nat} {a : String} :
    ∀ {sel : List (Nat × Bool)} {r : Nat} {e : Bool},
      (sel.map Prod.fst).Nodup → (r, e) ∈ sel →
      (applyReqs permissions m a sel).filter (fun q => reqRole q == r) =
        applyRoleReqs permissions m a r e := by
  intro sel
  induction sel with
  | nil => intro r e _ hmem; cases hmem
  | cons re rest ih =>
      intro r e hnd hmem
      rw [show applyReqs permissions m a (re :: rest) =
            applyRoleReqs permissions m a re.1 re.2 ++ applyReqs permissions m a rest
          from rfl,
        List.filter_append]
      rw [List.map_cons, List.nodup_cons] at hnd
      rcases List.mem_cons.mp hmem with heq | hrest
      · obtain ⟨r1, e1⟩ := re
        injection heq.symm with h1 h2
        subst h1
        subst h2
        rw [filter_reqRole_self (fun q hq => reqRole_applyRoleReqs hq),
          filter_applyReqs_not_mem hnd.1, List.append_nil]
      · have hne : re.1 ≠ r := by
          intro heq
          exact hnd.1 (heq ▸ List.mem_map_of_mem Prod.fst hrest)
        have hz : (applyRoleReqs permissions m a re.1 re.2).filter
            (fun q => reqRole q == r) = [] := by
          rw [List.filter_eq_nil_iff]
          intro q hq
          simp [reqRole_applyRoleReqs hq, hne]
        rw [hz, ih hnd.2 hrest, List.nil_append]

theorem mem_idsOf {l : List Permission} {q : Permission} {k : Nat}
    (hq : q ∈ l) (hk : q.id = some k) : k ∈ idsOf l := by
  unfold idsOf
  exact List.mem_filterMap.mpr ⟨q, hq, hk⟩

theorem ids_unique {l : List Permission} (hnd : (idsOf l).Nodup) :
    ∀ {p q : Permission} {k : Nat}, p ∈ l → q ∈ l → p.id = some k → q.id = some k →
      p = q := by
  induction l with
  | nil => intro p q k hp _ _ _; cases hp
  | cons x xs ih =>
      intro p q k hp hq hpk hqk
      have hnd2 : (idsOf xs).Nodup := by
        unfold idsOf at hnd ⊢
        rw [List.filterMap_cons] at hnd
        cases hx : x.id with
        | none => rwa [hx] at hnd
        | some j =>
            rw [hx] at hnd
            exact (List.nodup_cons.mp hnd).2
      rcases List.mem_cons.mp hp with rfl | hp2
      · rcases List.mem_cons.mp hq with rfl | hq2
        · rfl
        · exfalso
          have hkx : k ∈ idsOf xs := mem_idsOf hq2 hqk
          unfold idsOf at hnd
          rw [List.filterMap_cons, hpk] at hnd
          exact (List.nodup_cons.mp hnd).1 hkx
      · rcases List.mem_cons.mp hq with rfl | hq2
        · exfalso
          have hkx : k ∈ idsOf xs := mem_idsOf hp2 hpk
          unfold idsOf at hnd
          rw [List.filterMap_cons, hqk] at hnd
          exact (List.nodup_cons.mp hnd).1 hkx
        · exact ih hnd2 hp2 hq2 hpk hqk

theorem idsOf_append_singleton (l : List Permission) (q : Permission) :
    idsOf (l ++ [q]) = idsOf l ++ idsOf [q] := by
  unfold idsOf
  rw [List.filterMap_append]

theorem idsOf_map_replace {l : List Permission} {payload : Permission} {pid : Option Nat}
    (hpayid : payload.id = pid) :
    idsOf (l.map (fun q => if q.id == pid then payload else q)) = idsOf l := by
  induction l with
  | nil => rfl
  | cons x xs ih =>
      rw [List.map_cons]
      unfold idsOf at ih ⊢
      rw [List.filterMap_cons, List.filterMap_cons]
      by_cases hxid : x.id = pid
      · rw [if_pos (beq_iff_eq.mpr hxid)]
        have hids : payload.id = x.id := by rw [hpayid, hxid]
        rw [hids, ih]
      · rw [if_neg (by simp [hxid])]
        rw [ih]

theorem permMap_append {l : List Permission} {q : Permission} {r m : Nat} :
    permMap (l ++ [q]) r m =
      if permKeyMatch r m q then some q else permMap l r m := by
  unfold permMap
  rw [List.reverse_append]
  show ((q :: l.reverse).find? _) = _
  by_cases hq : permKeyMatch r m q = true
  · rw [if_pos hq, List.find?_cons_of_pos _ hq]
  · rw [if_neg hq, List.find?_cons_of_neg _ hq]

theorem find?_map_replace {pred : Permission → Bool} {pid : Option Nat}
    {payload : Permission} (hpay : pred payload = true) :
    ∀ {l : List Permission} {p : Permission},
      l.find? pred = some p → p.id = pid →
      (∀ q ∈ l, q.id = pid → q = p) →
      (l.map (fun q => if q.id == pid then payload else q)).find? pred = some payload := by
  intro l
  induction l with
  | nil => intro p h; cases h
  | cons x xs ih =>
      intro p hfind hpid huniq
      rw [List.map_cons]
      cases hx : pred x with
      | true =>
          rw [List.find?_cons_of_pos _ hx] at hfind
          have hxp : x = p := Option.some.inj hfind
          subst hxp
          have hbeq : (x.id == pid) = true := beq_iff_eq.mpr hpid
          rw [if_pos hbeq]
          exact List.find?_cons_of_pos _ hpay
      | false =>
          have hfind2 : xs.find? pred = some p := by
            rwa [List.find?_cons_of_neg _ (by simp [hx])] at hfind
          have hpp : pred p = true := List.find?_some hfind2
          cases hxid : x.id == pid with
          | true =>
              exfalso
              have hx2 : x = p :=
                huniq x (List.mem_cons_self ..) (beq_iff_eq.mp hxid)
              rw [hx2, hpp] at hx
              cases hx
          | false =>
              rw [if_neg (by simp [hxid]), List.find?_cons_of_neg _ (by simp [hx])]
              exact ih hfind2 hpid (fun q hq => huniq q (List.mem_cons_of_mem _ hq))

theorem find?_map_replace_frame {pred : Permission → Bool} {pid : Option Nat}
    {payload : Permission} (hpay : pred payload = false) :
    ∀ {l : List Permission},
      (∀ q ∈ l, q.id = pid → pred q = false) →
      (l.map (fun q => if q.id == pid then payload else q)).find? pred = l.find? pred := by
  intro l
  induction l with
  | nil => intro _; rfl
  | cons x xs ih =>
      intro hold
      rw [List.map_cons]
      by_cases hxid : x.id = pid
      · have hx : pred x = false :=
          hold x (List.mem_cons_self ..) hxid
        rw [if_pos (beq_iff_eq.mpr hxid), List.find?_cons_of_neg _ (by simp [hpay]),
          List.find?_cons_of_neg _ (by simp [hx])]
        exact ih (fun q hq => hold q (List.mem_cons_of_mem _ hq))
      · rw [if_neg (by simp [hxid])]
        cases hx : pred x with
        | true =>
            rw [List.find?_cons_of_pos _ hx, List.find?_cons_of_pos _ hx]
        | false =>
            rw [List.find?_cons_of_neg _ (by simp [hx]),
              List.find?_cons_of_neg _ (by simp [hx])]
            exact ih (fun q hq => hold q (List.mem_cons_of_mem _ hq))

theorem permMap_map_replace {l : List Permission} {r m : Nat} {p payload : Permission}
    {pid : Option Nat}
    (hfind : permMap l r m = some p) (hp : p.id = pid)
    (huniq : ∀ q ∈ l, q.id = pid → q = p)
    (hpay : permKeyMatch r m payload = true) :
    permMap (l.map (fun q => if q.id == pid then payload else q)) r m = some payload := by
  unfold permMap at hfind ⊢
  rw [← List.map_reverse]
  exact find?_map_replace hpay hfind hp
    (fun q hq => huniq q (List.mem_reverse.mp hq))

theorem permMap_map_replace_frame {l : List Permission} {r m : Nat} {payload : Permission}
    {pid : Option Nat}
    (hpay : permKeyMatch r m payload = false)
    (hold : ∀ q ∈ l, q.id = pid → permKeyMatch r m q = false) :
    permMap (l.map (fun q => if q.id == pid then payload else q)) r m = permMap l r m := by
  unfold permMap
  rw [← List.map_reverse]
  exact find?_map_replace_frame hpay (fun q hq => hold q (List.mem_reverse.mp hq))

theorem serverRun_append :
    ∀ (l1 : List Request) (perms : List Permission) (fid : Nat) (l2 : List Request),
      serverRun perms fid (l1 ++ l2) =
        serverRun (serverRun perms fid l1).1 (serverRun perms fid l1).2 l2
  | [], _, _, _ => rfl
  | req :: rest, perms, fid, l2 => by
      rw [List.cons_append]
      show serverRun (serverStep perms fid req).1 (serverStep perms fid req).2 (rest ++ l2) = _
      rw [serverRun_append rest]
      rfl

theorem beq_false_of_ne {a b : Nat} (h : a ≠ b) : (a == b) = false := by
  cases hab : a == b with
  | false => rfl
  | true => exact absurd (beq_iff_eq.mp hab) h

theorem roleOutcome_some {perms0 res : List Permission} {m : Nat} {a : String}
    {r : Nat} {e : Bool} {p : Permission} (hpm0 : permMap perms0 r m = some p)
    (hres : permMap res r m = some { p with actions := newActionsFor p a e }) :
    roleOutcome perms0 res m a r e := by
  unfold roleOutcome
  rw [hpm0]
  exact hres

theorem roleOutcome_none_enabled {perms0 res : List Permission} {m : Nat} {a : String}
    {r : Nat} {p1 : Permission} (hpm0 : permMap perms0 r m = none)
    (hres : permMap res r m = some p1) (hact : p1.actions = [a]) :
    roleOutcome perms0 res m a r true := by
  unfold roleOutcome
  rw [hpm0]
  exact ⟨p1, hres, hact⟩

theorem roleOutcome_none_disabled {perms0 res : List Permission} {m : Nat} {a : String}
    {r : Nat} (hpm0 : permMap perms0 r m = none)
    (hres : permMap res r m = none) :
    roleOutcome perms0 res m a r false := by
  unfold roleOutcome
  rw [hpm0]
  exact hres

theorem roleOutcome_elim_some {perms0 res : List Permission} {m : Nat} {a : String}
    {r : Nat} {e : Bool} {p : Permission} (hpm0 : permMap perms0 r m = some p)
    (h : roleOutcome perms0 res m a r e) :
    permMap res r m = some { p with actions := newActionsFor p a e } := by
  unfold roleOutcome at h
  rw [hpm0] at h
  exact h

theorem roleOutcome_elim_none_enabled {perms0 res : List Permission} {m : Nat} {a : String}
    {r : Nat} (hpm0 : permMap perms0 r m = none)
    (h : roleOutcome perms0 res m a r true) :
    ∃ p1, permMap res r m = some p1 ∧ p1.actions = [a] := by
  unfold roleOutcome at h
  rw [hpm0] at h
  exact h

theorem roleOutcome_elim_none_disabled {perms0 res : List Permission} {m : Nat} {a : String}
    {r : Nat} (hpm0 : permMap perms0 r m = none)
    (h : roleOutcome perms0 res m a r false) :
    permMap res r m = none := by
  unfold roleOutcome at h
  rw [hpm0] at h
  exact h

theorem contains_eq_of_mem_iff {l : List String} {a : String} {e : Bool}
    (h : a ∈ l ↔ e = true) : l.contains a = e := by
  cases e with
  | true => exact contains_iff_mem.mpr (h.mpr rfl)
  | false =>
      cases hc : l.contains a with
      | false => rfl
      | true => exact absurd (h.mp (contains_iff_mem.mp hc)) (by simp)

theorem newActionsFor_stable {p : Permission} {a : String} {e : Bool}
    (h : p.actions.contains a = e) : newActionsFor p a e = p.actions := by
  unfold newActionsFor
  cases e <;> rw [h] <;> simp

theorem runSel_spec (perms0 : List Permission) (m : Nat) (a : String)
    (hnd0 : (idsOf perms0).Nodup) (hsome0 : ∀ p ∈ perms0, p.id.isSome = true) :
    ∀ (sel : List (Nat × Bool)) (cur : List Permission) (fid : Nat),
      (∀ p ∈ cur, p.id.isSome = true) →
      (idsOf cur).Nodup →
      (∀ i ∈ idsOf cur, i < fid) →
      (∀ i ∈ idsOf perms0, i < fid) →
      KeyStable perms0 cur →
      (sel.map Prod.fst).Nodup →
      (∀ re ∈ sel, permMap cur re.1 m = permMap perms0 re.1 m) →
      (∀ re ∈ sel, roleOutcome perms0
          (serverRun cur fid (applyReqs perms0 m a sel)).1 m a re.1 re.2) ∧
      (∀ p ∈ (serverRun cur fid (applyReqs perms0 m a sel)).1, p.id.isSome = true) ∧
      (idsOf (serverRun cur fid (applyReqs perms0 m a sel)).1).Nodup ∧
      (∀ i ∈ idsOf (serverRun cur fid (applyReqs perms0 m a sel)).1,
        i < (serverRun cur fid (applyReqs perms0 m a sel)).2) ∧
      (∀ i ∈ idsOf perms0, i < (serverRun cur fid (applyReqs perms0 m a sel)).2) ∧
      KeyStable perms0 (serverRun cur fid (applyReqs perms0 m a sel)).1 ∧
      (∀ r : Nat, ¬ r ∈ sel.map Prod.fst →
        permMap (serverRun cur fid (applyReqs perms0 m a sel)).1 r m =
          permMap cur r m) := by
  intro sel
  induction sel with
  | nil =>
      intro cur fid h1 h2 h3 h4 h5 _ _
      exact ⟨fun re hre => absurd hre (List.not_mem_nil re), h1, h2, h3, h4, h5,
        fun r _ => rfl⟩
  | cons re rest ih =>
      intro cur fid h1 h2 h3 h4 h5 h6 h7
      obtain ⟨r, e⟩ := re
      have h6' : ¬ r ∈ rest.map Prod.fst ∧ (rest.map Prod.fst).Nodup := by
        rw [List.map_cons, List.nodup_cons] at h6
        exact h6
      cases hpm0 : permMap perms0 r m with
      | none =>
          have hreq : applyRoleReqs perms0 m a r e =
              if e then
                [Request.post ⟨none, r, m, [a], some [], some []⟩]
              else [] := by
            unfold applyRoleReqs
            rw [hpm0]
          cases e with
          | false =>
              have hlist : applyReqs perms0 m a ((r, false) :: rest) =
                  applyReqs perms0 m a rest := by
                show applyRoleReqs perms0 m a r false ++ applyReqs perms0 m a rest = _
                rw [hreq]
                simp
              rw [hlist]
              obtain ⟨iA, iB, iC, iD, iE, iF, iG⟩ :=
                ih cur fid h1 h2 h3 h4 h5 h6'.2
                  (fun re2 hre2 => h7 re2 (List.mem_cons_of_mem _ hre2))
              refine ⟨?_, iB, iC, iD, iE, iF, ?_⟩
              · intro re2 hre2
                rcases List.mem_cons.mp hre2 with heq | hre3
                · subst heq
                  apply roleOutcome_none_disabled hpm0
                  rw [iG r h6'.1, h7 (r, false) (List.mem_cons_self ..)]
                  exact hpm0
                · exact iA re2 hre3
              · intro r' hr'
                rw [List.map_cons] at hr'
                exact iG r' (fun hc => hr' (List.mem_cons_of_mem _ hc))
          | true =>
              have hlist : applyReqs perms0 m a ((r, true) :: rest) =
                  Request.post ⟨none, r, m, [a], some [], some []⟩ ::
                    applyReqs perms0 m a rest := by
                show applyRoleReqs perms0 m a r true ++ applyReqs perms0 m a rest = _
                rw [hreq]
                simp
              rw [hlist]
              rw [show serverRun cur fid
                  (Request.post ⟨none, r, m, [a], some [], some []⟩ ::
                    applyReqs perms0 m a rest) =
                  serverRun (cur ++ [(⟨some fid, r, m, [a], some [], some []⟩ :
                    Permission)]) (fid + 1) (applyReqs perms0 m a rest) from rfl]
              have hids : idsOf (cur ++
                  [(⟨some fid, r, m, [a], some [], some []⟩ : Permission)]) =
                  idsOf cur ++ [fid] := by
                rw [idsOf_append_singleton]
                rfl
              have g1 : ∀ p ∈ cur ++
                  [(⟨some fid, r, m, [a], some [], some []⟩ : Permission)],
                  p.id.isSome = true := by
                intro p hp
                rcases List.mem_append.mp hp with hp1 | hp2
                · exact h1 p hp1
                · have hp3 := List.mem_singleton.mp hp2
                  subst hp3
                  rfl
              have g2 : (idsOf (cur ++
                  [(⟨some fid, r, m, [a], some [], some []⟩ : Permission)])).Nodup := by
                rw [hids, List.nodup_append]
                refine ⟨h2, by simp, ?_⟩
                intro x hx hx2
                have hxfid := List.mem_singleton.mp hx2
                subst hxfid
                exact Nat.lt_irrefl x (h3 x hx)
              have g3 : ∀ i ∈ idsOf (cur ++
                  [(⟨some fid, r, m, [a], some [], some []⟩ : Permission)]),
                  i < fid + 1 := by
                intro i hi
                rw [hids] at hi
                rcases List.mem_append.mp hi with hi1 | hi2
                · exact Nat.lt_succ_of_lt (h3 i hi1)
                · have hi3 := List.mem_singleton.mp hi2
                  rw [hi3]
                  exact Nat.lt_succ_self fid
              have g4 : ∀ i ∈ idsOf perms0, i < fid + 1 :=
                fun i hi => Nat.lt_succ_of_lt (h4 i hi)
              have g5 : KeyStable perms0 (cur ++
                  [(⟨some fid, r, m, [a], some [], some []⟩ : Permission)]) := by
                intro p hp q hq k hpk hqk
                rcases List.mem_append.mp hp with hp1 | hp2
                · exact h5 p hp1 q hq k hpk hqk
                · have hp3 := List.mem_singleton.mp hp2
                  subst hp3
                  have hkfid : k = fid := (Option.some.inj hpk).symm
                  subst hkfid
                  exact absurd (h4 k (mem_idsOf hq hqk)) (Nat.lt_irrefl k)
              have g7 : ∀ re2 ∈ rest,
                  permMap (cur ++
                    [(⟨some fid, r, m, [a], some [], some []⟩ : Permission)]) re2.1 m =
                    permMap perms0 re2.1 m := by
                intro re2 hre2
                have hne : re2.1 ≠ r :=
                  fun hc => h6'.1 (hc ▸ List.mem_map_of_mem Prod.fst hre2)
                rw [permMap_append]
                have hkeyf : permKeyMatch re2.1 m
                    (⟨some fid, r, m, [a], some [], some []⟩ : Permission) = false := by
                  unfold permKeyMatch
                  simp [beq_false_of_ne (Ne.symm hne)]
                rw [if_neg (by simp [hkeyf])]
                exact h7 re2 (List.mem_cons_of_mem _ hre2)
              obtain ⟨iA, iB, iC, iD, iE, iF, iG⟩ :=
                ih (cur ++ [(⟨some fid, r, m, [a], some [], some []⟩ : Permission)])
                  (fid + 1) g1 g2 g3 g4 g5 h6'.2 g7
              refine ⟨?_, iB, iC, iD, iE, iF, ?_⟩
              · intro re2 hre2
                rcases List.mem_cons.mp hre2 with heq | hre3
                · subst heq
                  refine @roleOutcome_none_enabled perms0 _ m a r
                    (⟨some fid, r, m, [a], some [], some []⟩ : Permission) hpm0 ?_ rfl
                  rw [iG r h6'.1, permMap_append]
                  have hkeyt : permKeyMatch r m
                      (⟨some fid, r, m, [a], some [], some []⟩ : Permission) = true := by
                    unfold permKeyMatch
                    simp
                  rw [if_pos hkeyt]
                · exact iA re2 hre3
              · intro r' hr'
                rw [List.map_cons] at hr'
                have hner : r' ≠ r :=
                  fun hc => hr' (by rw [hc]; exact List.mem_cons_self ..)
                rw [iG r' (fun hc => hr' (List.mem_cons_of_mem _ hc)), permMap_append]
                have hkeyf : permKeyMatch r' m
                    (⟨some fid, r, m, [a], some [], some []⟩ : Permission) = false := by
                  unfold permKeyMatch
                  simp [beq_false_of_ne (Ne.symm hner)]
                rw [if_neg (by simp [hkeyf])]
      | some p =>
          have hkey := permMap_eq_some hpm0
          obtain ⟨k, hk⟩ := Option.isSome_iff_exists.mp (hsome0 p hkey.1)
          have hreq : applyRoleReqs perms0 m a r e =
              [Request.put p.id { p with actions := newActionsFor p a e }] := by
            unfold applyRoleReqs
            rw [hpm0]
          have hlist : applyReqs perms0 m a ((r, e) :: rest) =
              Request.put p.id { p with actions := newActionsFor p a e } ::
                applyReqs perms0 m a rest := by
            show applyRoleReqs perms0 m a r e ++ applyReqs perms0 m a rest = _
            rw [hreq]
            simp
          rw [hlist]
          rw [show serverRun cur fid
              (Request.put p.id { p with actions := newActionsFor p a e } ::
                applyReqs perms0 m a rest) =
              serverRun (cur.map (fun q => if q.id == p.id then
                { p with actions := newActionsFor p a e } else q)) fid
                (applyReqs perms0 m a rest) from rfl]
          have hcur : permMap cur r m = some p := by
            rw [h7 (r, e) (List.mem_cons_self ..)]
            exact hpm0
          have hpcur : p ∈ cur := (permMap_eq_some hcur).1
          have huniq : ∀ q ∈ cur, q.id = p.id → q = p := by
            intro q hq hqid
            rw [hk] at hqid
            exact ids_unique h2 hq hpcur hqid hk
          have hpaykey : permKeyMatch r m
              { p with actions := newActionsFor p a e } = true := by
            unfold permKeyMatch
            simp [hkey.2.1, hkey.2.2]
          have hrepl : permMap (cur.map (fun q => if q.id == p.id then
              { p with actions := newActionsFor p a e } else q)) r m =
              some { p with actions := newActionsFor p a e } :=
            permMap_map_replace hcur rfl huniq hpaykey
          have hframe1 : ∀ r' : Nat, r' ≠ r →
              permMap (cur.map (fun q => if q.id == p.id then
                { p with actions := newActionsFor p a e } else q)) r' m =
                permMap cur r' m := by
            intro r' hner
            apply permMap_map_replace_frame
            · unfold permKeyMatch
              simp [hkey.2.1, beq_false_of_ne (Ne.symm hner)]
            · intro q hq hqid
              rw [huniq q hq hqid]
              unfold permKeyMatch
              simp [hkey.2.1, beq_false_of_ne (Ne.symm hner)]
          have g1 : ∀ q ∈ cur.map (fun q => if q.id == p.id then
              { p with actions := newActionsFor p a e } else q), q.id.isSome = true := by
            intro q hq
            obtain ⟨q0, hq0, rfl⟩ := List.mem_map.mp hq
            by_cases hid : q0.id = p.id
            · rw [if_pos (beq_iff_eq.mpr hid)]
              show p.id.isSome = true
              rw [hk]
              rfl
            · rw [if_neg (by simp [hid])]
              exact h1 q0 hq0
          have hids1 : idsOf (cur.map (fun q => if q.id == p.id then
              { p with actions := newActionsFor p a e } else q)) = idsOf cur :=
            idsOf_map_replace rfl
          have g2 : (idsOf (cur.map (fun q => if q.id == p.id then
              { p with actions := newActionsFor p a e } else q))).Nodup := by
            rw [hids1]
            exact h2
          have g3 : ∀ i ∈ idsOf (cur.map (fun q => if q.id == p.id then
              { p with actions := newActionsFor p a e } else q)), i < fid := by
            intro i hi
            rw [hids1] at hi
            exact h3 i hi
          have g5 : KeyStable perms0 (cur.map (fun q => if q.id == p.id then
              { p with actions := newActionsFor p a e } else q)) := by
            intro p' hp' q hq k' hp'k hqk
            obtain ⟨q0, hq0, rfl⟩ := List.mem_map.mp hp'
            by_cases hid : q0.id = p.id
            · rw [if_pos (beq_iff_eq.mpr hid)] at hp'k ⊢
              have hpk' : p.id = some k' := hp'k
              have hkk : k' = k := by
                rw [hk] at hpk'
                exact (Option.some.inj hpk').symm
              subst hkk
              have hqp : q = p := ids_unique hnd0 hq hkey.1 hqk hk
              subst hqp
              exact ⟨rfl, rfl⟩
            · rw [if_neg (by simp [hid])] at hp'k ⊢
              exact h5 q0 hq0 q hq k' hp'k hqk
          have g7 : ∀ re2 ∈ rest, permMap (cur.map (fun q => if q.id == p.id then
              { p with actions := newActionsFor p a e } else q)) re2.1 m =
              permMap perms0 re2.1 m := by
            intro re2 hre2
            have hne : re2.1 ≠ r :=
              fun hc => h6'.1 (hc ▸ List.mem_map_of_mem Prod.fst hre2)
            rw [hframe1 re2.1 hne]
            exact h7 re2 (List.mem_cons_of_mem _ hre2)
          obtain ⟨iA, iB, iC, iD, iE, iF, iG⟩ :=
            ih (cur.map (fun q => if q.id == p.id then
              { p with actions := newActionsFor p a e } else q)) fid
              g1 g2 g3 h4 g5 h6'.2 g7
          refine ⟨?_, iB, iC, iD, iE, iF, ?_⟩
          · intro re2 hre2
            rcases List.mem_cons.mp hre2 with heq | hre3
            · subst heq
              apply roleOutcome_some hpm0
              rw [iG r h6'.1]
              exact hrepl
            · exact iA re2 hre3
          · intro r' hr'
            rw [List.map_cons] at hr'
            have hner : r' ≠ r :=
              fun hc => hr' (by rw [hc]; exact List.mem_cons_self ..)
            rw [iG r' (fun hc => hr' (List.mem_cons_of_mem _ hc)), hframe1 r' hner]

theorem serverRun_identity (perms : List Permission) (m : Nat) (a : String)
    (hsome : ∀ p ∈ perms, p.id.isSome = true)
    (hnd : (idsOf perms).Nodup) :
    ∀ (sel : List (Nat × Bool)) (fid : Nat),
      (∀ re ∈ sel, applyRoleReqs perms m a re.1 re.2 = [] ∨
        ∃ p1, permMap perms re.1 m = some p1 ∧
          applyRoleReqs perms m a re.1 re.2 = [Request.put p1.id p1]) →
      serverRun perms fid (applyReqs perms m a sel) = (perms, fid)
  | [], _, _ => rfl
  | re :: rest, fid, h => by
      have hlistdef : applyReqs perms m a (re :: rest) =
          applyRoleReqs perms m a re.1 re.2 ++ applyReqs perms m a rest := rfl
      rcases h re (List.mem_cons_self ..) with hnil | ⟨p1, hp1, hput⟩
      · rw [hlistdef, hnil, List.nil_append]
        exact serverRun_identity perms m a hsome hnd rest fid
          (fun r2 hr2 => h r2 (List.mem_cons_of_mem _ hr2))
      · rw [hlistdef, hput, List.singleton_append]
        have hmapid : perms.map (fun q => if q.id == p1.id then p1 else q) = perms := by
          have hp1mem : p1 ∈ perms := (permMap_eq_some hp1).1
          obtain ⟨k, hk⟩ := Option.isSome_iff_exists.mp (hsome p1 hp1mem)
          conv_rhs => rw [← List.map_id perms]
          apply List.map_congr_left
          intro q hq
          by_cases hid : q.id = p1.id
          · rw [if_pos (beq_iff_eq.mpr hid)]
            have hq1 : q = p1 := ids_unique hnd hq hp1mem (hid.trans hk) hk
            exact hq1.symm
          · rw [if_neg (by simp [hid])]
            rfl
        rw [show serverRun perms fid
              (Request.put p1.id p1 :: applyReqs perms m a rest) =
              serverRun (perms.map (fun q => if q.id == p1.id then p1 else q)) fid
                (applyReqs perms m a rest) from rfl]
        rw [hmapid]
        exact serverRun_identity perms m a hsome hnd rest fid
          (fun r2 hr2 => h r2 (List.mem_cons_of_mem _ hr2))

theorem runSteps_caught (fails : Nat → Bool) : ∀ (i : Nat) (l : List Request),
    runSteps true fails i l = (l, true)
  | _, [] => rfl
  | i, r :: rest => by
      unfold runSteps
      rw [runSteps_caught fails (i + 1) rest]
      simp

/-! ## Claims -/

/-- Claim C1: `userHasAction(U, M, A)` returns true iff at least one role
linked to U by a user-role record has a permission row indexed under
(R, M) whose actions list contains A; in particular it returns false when
U has no linked roles. -/
theorem c1_userHasAction_iff (userRoles : List UserRole) (permissions : List Permission)
    (u m : Nat) (a : String) :
    (userHasAction userRoles permissions u m a = true ↔
      ∃ rid ∈ userRoleIds userRoles u, ∃ p, permMap permissions rid m = some p ∧
        a ∈ p.actions) ∧
    (userRoleIds userRoles u = [] → userHasAction userRoles permissions u m a = false) := by
  constructor
  · unfold userHasAction
    rw [List.any_eq_true]
    constructor
    · rintro ⟨rid, hrid, hp⟩
      cases hpm : permMap permissions rid m with
      | none => rw [hpm] at hp; cases hp
      | some p =>
          rw [hpm] at hp
          exact ⟨rid, hrid, p, hpm, contains_iff_mem.mp hp⟩
    · rintro ⟨rid, hrid, p, hpm, hmem⟩
      refine ⟨rid, hrid, ?_⟩
      rw [hpm]
      exact contains_iff_mem.mpr hmem
  · intro h
    simp [userHasAction, h]

/-- Witness for C1 on a concrete input: a user with no user-role records
has no action granted. -/
theorem c1_userHasAction_iff_witness :
    userHasAction [] [permFixture] 1 1 "read" = false :=
  (c1_userHasAction_iff [] [permFixture] 1 1 "read").2 rfl

/-- Claim C2: `unionFieldsForUserModule(U, M)` returns exactly the set
union of the `visibleFields` (respectively `editableFields`) lists over
all permission rows whose (roleId, moduleId) key matches one of the roles
of U and M; when no permission row matches, both returned sets are empty. -/
theorem c2_unionFields_spec (userRoles : List UserRole) (permissions : List Permission)
    (u m : Nat) :
    (∀ f, f ∈ (unionFieldsForUserModule userRoles permissions u m).visible ↔
      ∃ rid ∈ userRoleIds userRoles u, ∃ p, permMap permissions rid m = some p ∧
        f ∈ p.visibleFields.getD []) ∧
    (∀ f, f ∈ (unionFieldsForUserModule userRoles permissions u m).editable ↔
      ∃ rid ∈ userRoleIds userRoles u, ∃ p, permMap permissions rid m = some p ∧
        f ∈ p.editableFields.getD []) ∧
    ((∀ rid ∈ userRoleIds userRoles u, permMap permissions rid m = none) →
      unionFieldsForUserModule userRoles permissions u m =
        { visible := [], editable := [] }) := by
  refine ⟨?_, ?_, ?_⟩
  · intro f
    have h := (mem_foldl_unionStep permissions m f (userRoleIds userRoles u)
      { visible := [], editable := [] }).1
    unfold unionFieldsForUserModule
    rw [h]
    simp
  · intro f
    have h := (mem_foldl_unionStep permissions m f (userRoleIds userRoles u)
      { visible := [], editable := [] }).2
    unfold unionFieldsForUserModule
    rw [h]
    simp
  · intro h
    exact foldl_unionStep_of_none permissions m _ _ h

/-- Witness for C2 on a concrete input: a user whose single role has no
permission row for the module gets two empty field sets. -/
theorem c2_unionFields_spec_witness :
    unionFieldsForUserModule [linkFixture] [permFixture2] 1 1 =
      { visible := [], editable := [] } :=
  (c2_unionFields_spec [linkFixture] [permFixture2] 1 1).2.2 (by decide)

/-- Claim C3: in the action-toggle apply step, a selected role with no
existing permission row for (role, module) gets exactly one create request
whose body has the single toggled action and empty field lists when the
role is enabled, and no network call at all when it is disabled. -/
theorem c3_create_on_missing_row (permissions : List Permission) (m : Nat) (a : String)
    (r : Nat) (e : Bool) (sel : List (Nat × Bool))
    (hnd : (sel.map Prod.fst).Nodup) (hmem : (r, e) ∈ sel)
    (hnone : permMap permissions r m = none) :
    (applyReqs permissions m a sel).filter (fun q => reqRole q == r) =
      if e then
        [Request.post ⟨none, r, m, [a], some [], some []⟩]
      else [] := by
  rw [applyReqs_filter hnd hmem]
  unfold applyRoleReqs
  rw [hnone]

/-- Witness for C3 on a concrete input: enabling `read` for role 3 with an
empty snapshot issues exactly one create request. -/
theorem c3_create_on_missing_row_witness :
    (applyReqs [] 1 "read" [(3, true)]).filter (fun q => reqRole q == 3) =
      [Request.post ⟨none, 3, 1, ["read"], some [], some []⟩] := by
  have h := c3_create_on_missing_row [] 1 "read" 3 true [(3, true)]
    (by decide) (by decide) (by decide)
  simpa using h

/-- Claim C4: in the action-toggle apply step, a selected role with an
existing permission row gets exactly one PUT whose payload is the existing
record with only its actions changed: the toggled action is present in the
payload iff the box was enabled, every other action is unchanged (in
order), and both field lists and the identifying fields are unchanged. -/
theorem c4_update_preserves_rest (permissions : List Permission) (m : Nat) (a : String)
    (r : Nat) (e : Bool) (sel : List (Nat × Bool)) (perm : Permission)
    (hnd : (sel.map Prod.fst).Nodup) (hmem : (r, e) ∈ sel)
    (hsome : permMap permissions r m = some perm) :
    ∃ payload,
      (applyReqs permissions m a sel).filter (fun q => reqRole q == r) =
        [Request.put perm.id payload] ∧
      payload.id = perm.id ∧
      payload.roleId = perm.roleId ∧
      payload.moduleId = perm.moduleId ∧
      payload.visibleFields = perm.visibleFields ∧
      payload.editableFields = perm.editableFields ∧
      payload.actions.filter (fun x => x != a) = perm.actions.filter (fun x => x != a) ∧
      (a ∈ payload.actions ↔ e = true) := by
  refine ⟨{ perm with actions := newActionsFor perm a e }, ?_, rfl, rfl, rfl, rfl, rfl,
    newActionsFor_filter perm a e, mem_newActionsFor perm a e⟩
  rw [applyReqs_filter hnd hmem]
  unfold applyRoleReqs
  rw [hsome]

/-- Witness for C4 on a concrete input: disabling `read` on a role whose
row grants it issues one PUT with the action removed and everything else
intact. -/
theorem c4_update_preserves_rest_witness :
    ∃ payload,
      (applyReqs [permFixture] 1 "read" [(1, false)]).filter (fun q => reqRole q == 1) =
        [Request.put permFixture.id payload] ∧
      payload.id = permFixture.id ∧
      payload.roleId = permFixture.roleId ∧
      payload.moduleId = permFixture.moduleId ∧
      payload.visibleFields = permFixture.visibleFields ∧
      payload.editableFields = permFixture.editableFields ∧
      payload.actions.filter (fun x => x != "read") =
        permFixture.actions.filter (fun x => x != "read") ∧
      ("read" ∈ payload.actions ↔ false = true) :=
  c4_update_preserves_rest [permFixture] 1 "read" 1 false [(1, false)] permFixture
    (by decide) (by decide) (by decide)

/-- Claim C5: a user with zero assigned roles clicking any action checkbox
hits the no-roles guard: the modal is not opened and no state changes (and
`openActionModal` issues no network call on any path). -/
theorem c5_no_roles_blocks (userRoles : List UserRole) (roles : List Role)
    (permissions : List Permission) (u m : Nat) (a : String)
    (h : userRoleIds userRoles u = []) :
    openActionModal userRoles roles permissions u m a = none := by
  simp [openActionModal, userRolesObjects, h, List.filter_eq_nil_iff]

/-- Witness for C5 on a concrete input: user 2 holds no role, so the
modal stays closed. -/
theorem c5_no_roles_blocks_witness :
    openActionModal [linkFixture] [⟨1, "admin"⟩] [permFixture] 2 1 "read" = none :=
  c5_no_roles_blocks [linkFixture] [⟨1, "admin"⟩] [permFixture] 2 1 "read" (by decide)

/-- Counterexample for C6: the field-editor save has no try/catch, so on
a concrete snapshot a failing network call leaves the snapshot unreloaded
and the modal open, contradicting the claim that the save workflow always
reloads the snapshot even when its network call fails. -/
theorem c6_counterexample_save_aborts :
    (saveFieldsModalRun [permFixture] fmFixture (fun _ => true)).attempted ≠ [] ∧
    (saveFieldsModalRun [permFixture] fmFixture (fun _ => true)).reloaded = false ∧
    (saveFieldsModalRun [permFixture] fmFixture (fun _ => true)).closedModal = false := by
  decide

/-- Claim C6 (amended): in the action-toggle apply step every fetch is
wrapped in try/catch, so whatever calls fail, all requests are attempted,
processing continues and the snapshot is reloaded; the field-editor save
has no try/catch, so a failing call aborts it: the request is attempted
but the snapshot is not reloaded and the modal is not closed. -/
theorem c6_mutation_failures (permissions : List Permission) (am : ActionModal)
    (fm : FieldsModal) (fails : Nat → Bool) :
    ((falsyNum am.userId || falsyNum am.moduleId || falsyStr am.action) = false →
      applyActionModalRun permissions am fails =
        { attempted := applyReqs permissions (am.moduleId.getD 0) (am.action.getD "")
            am.selectedRoles,
          reloaded := true, modal := closedActionModal }) ∧
    ((falsyNum fm.moduleId || falsyNum fm.roleId) = false → fails 0 = true →
      saveFieldsModalRun permissions fm fails =
        { attempted := [saveReq permissions fm (fm.moduleId.getD 0) (fm.roleId.getD 0)],
          reloaded := false, closedModal := false }) := by
  constructor
  · intro hguard
    unfold applyActionModalRun
    rw [if_neg (by simp [hguard])]
    rw [runSteps_caught]
    rfl
  · intro hguard hfail
    unfold saveFieldsModalRun
    rw [if_neg (by simp [hguard])]
    simp [runSteps, hfail]

/-- Witness for C6 (amended) on concrete inputs: with every fetch failing,
the apply step still attempts its one create request and reloads, while
the save step attempts its request and aborts. -/
theorem c6_mutation_failures_witness :
    applyActionModalRun [] amFixture (fun _ => true) =
      { attempted := applyReqs [] 1 "read" [(1, true)],
        reloaded := true, modal := closedActionModal } ∧
    saveFieldsModalRun [] fmFixture (fun _ => true) =
      { attempted := [saveReq [] fmFixture 1 1],
        reloaded := false, closedModal := false } :=
  ⟨(c6_mutation_failures [] amFixture fmFixture (fun _ => true)).1 (by decide),
   (c6_mutation_failures [] amFixture fmFixture (fun _ => true)).2 (by decide) rfl⟩

/-- Claim C7: the field-editor open step resolves the role as the first
user-role link of the user, independently of the module, and is blocked
when the user has none; the save step PUTs the existing (role, module)
record with the new field lists and the actions list untouched, or POSTs a
new record with empty actions when none exists; with valid ids and a
succeeding call the save attempts exactly that request, reloads and
closes. -/
theorem c7_fields_editor (userRoles : List UserRole) (permissions : List Permission)
    (parse : String → Option (List String)) (u : Nat) (moduleObj : Module) :
    (userRoles.find? (fun ur => ur.userId == u) = none →
      openFieldsEditor userRoles permissions parse u moduleObj = none) ∧
    (∀ rel, userRoles.find? (fun ur => ur.userId == u) = some rel →
      ∃ fm, openFieldsEditor userRoles permissions parse u moduleObj = some fm ∧
        fm.roleId = some rel.roleId ∧ fm.moduleId = some moduleObj.id) ∧
    (∀ fm mId rId existing,
      permissions.find? (fun p => p.roleId == rId && p.moduleId == mId) = some existing →
      saveReq permissions fm mId rId =
        Request.put existing.id
          { existing with visibleFields := some fm.visibleFields,
                          editableFields := some fm.editableFields } ∧
        ({ existing with visibleFields := some fm.visibleFields,
                         editableFields := some fm.editableFields } : Permission).actions =
          existing.actions) ∧
    (∀ fm mId rId,
      permissions.find? (fun p => p.roleId == rId && p.moduleId == mId) = none →
      saveReq permissions fm mId rId =
        Request.post ⟨none, rId, mId, [], some fm.visibleFields, some fm.editableFields⟩) ∧
    (∀ fm mId rId, fm.moduleId = some mId → mId ≠ 0 → fm.roleId = some rId → rId ≠ 0 →
      saveFieldsModalRun permissions fm (fun _ => false) =
        { attempted := [saveReq permissions fm mId rId],
          reloaded := true, closedModal := true }) := by
  refine ⟨?_, ?_, ?_, ?_, ?_⟩
  · intro h
    simp [openFieldsEditor, h]
  · intro rel hrel
    have heq : openFieldsEditor userRoles permissions parse u moduleObj =
        some { isOpen := true,
               permId := (permMap permissions rel.roleId moduleObj.id).bind
                 (fun p => p.id),
               moduleId := some moduleObj.id,
               roleId := some rel.roleId,
               visibleFields := ((permMap permissions rel.roleId moduleObj.id).bind
                 (fun p => p.visibleFields)).getD [],
               editableFields := ((permMap permissions rel.roleId moduleObj.id).bind
                 (fun p => p.editableFields)).getD [],
               allFields := normalizeFields parse moduleObj.fields } := by
      unfold openFieldsEditor
      rw [hrel]
    exact ⟨_, heq, rfl, rfl⟩
  · intro fm mId rId existing hfind
    refine ⟨?_, rfl⟩
    unfold saveReq
    rw [hfind]
  · intro fm mId rId hfind
    unfold saveReq
    rw [hfind]
  · intro fm mId rId hm hm0 hr hr0
    unfold saveFieldsModalRun
    have hguard : (falsyNum fm.moduleId || falsyNum fm.roleId) = false := by
      rw [hm, hr]
      simp [falsyNum, hm0, hr0]
    rw [if_neg (by simp [hguard])]
    rw [hm, hr]
    simp [runSteps]

/-- Witness for C7 on a concrete input: user 1's first link is role 1, so
the editor opens on role 1 for module 1. -/
theorem c7_fields_editor_witness :
    ∃ fm, openFieldsEditor [linkFixture] [] jsonParseFixture 1 ⟨1, "mod", .undef⟩ =
        some fm ∧ fm.roleId = some 1 ∧ fm.moduleId = some 1 :=
  (c7_fields_editor [linkFixture] [] jsonParseFixture 1 ⟨1, "mod", .undef⟩).2.1
    linkFixture (by decide)

/-- Claim C8: normalizing a module field list yields a list of field
names: a list input is passed through unchanged, a string input is parsed
by the JSON parser (abstracted as `parse`, with `parse s = none` exactly
when `JSON.parse` throws), and a string whose parse fails yields `[]`
silently.  The hypotheses pin the two JSON facts the code relies on:
parsing `"[]"` yields `[]` and parsing the empty string fails. -/
theorem c8_normalize_fields (parse : String → Option (List String))
    (hjson : parse "[]" = some []) (hempty : parse "" = none) :
    (∀ fs, normalizeFields parse (.arr fs) = fs) ∧
    (∀ s, normalizeFields parse (.str s) = (parse s).getD []) ∧
    normalizeFields parse .undef = [] := by
  refine ⟨fun fs => rfl, ?_, by simp [normalizeFields, hjson]⟩
  intro s
  have hred : normalizeFields parse (.str s) =
      (parse (if s == "" then "[]" else s)).getD [] := rfl
  cases hs : s == "" with
  | true =>
      rw [hred, if_pos hs]
      rw [beq_iff_eq] at hs
      subst hs
      rw [hjson, hempty]
      rfl
  | false =>
      rw [hred, if_neg (by simp [hs])]

/-- Witness for C8 on a concrete input: an unparsable string yields the
empty field list. -/
theorem c8_normalize_fields_witness :
    normalizeFields jsonParseFixture (.str "oops") = [] := by
  have h := (c8_normalize_fields jsonParseFixture (by decide) (by decide)).2.1 "oops"
  simpa [jsonParseFixture] using h

/-- Claim C10: the apply and save entry points guard by JS falsiness.  A
null or zero user id or module id (or a null action) makes the apply step
return immediately: no request, no reload, the modal left unchanged (and
open).  A null or zero stored module id or role id makes the field-editor
save close the modal with no network call and no reload. -/
theorem c10_falsiness_guards (permissions : List Permission) (am : ActionModal)
    (fm : FieldsModal) (fails : Nat → Bool) :
    ((am.userId = none ∨ am.userId = some 0 ∨ am.moduleId = none ∨
        am.moduleId = some 0 ∨ am.action = none) →
      applyActionModalRun permissions am fails =
        { attempted := [], reloaded := false, modal := am }) ∧
    ((fm.moduleId = none ∨ fm.moduleId = some 0 ∨ fm.roleId = none ∨
        fm.roleId = some 0) →
      saveFieldsModalRun permissions fm fails =
        { attempted := [], reloaded := false, closedModal := true }) := by
  constructor
  · intro h
    have hf : (falsyNum am.userId || falsyNum am.moduleId || falsyStr am.action) = true := by
      rcases h with h | h | h | h | h <;> simp [falsyNum, falsyStr, h]
    unfold applyActionModalRun
    rw [if_pos hf]
  · intro h
    have hf : (falsyNum fm.moduleId || falsyNum fm.roleId) = true := by
      rcases h with h | h | h | h <;> simp [falsyNum, h]
    unfold saveFieldsModalRun
    rw [if_pos hf]

/-- Witness for C10 on concrete inputs: an action modal with user id 0 and
a fields modal with a null role id. -/
theorem c10_falsiness_guards_witness :
    applyActionModalRun [permFixture] amFixtureFalsy (fun _ => false) =
      { attempted := [], reloaded := false, modal := amFixtureFalsy } ∧
    saveFieldsModalRun [permFixture] fmFixtureFalsy (fun _ => false) =
      { attempted := [], reloaded := false, closedModal := true } :=
  ⟨(c10_falsiness_guards [permFixture] amFixtureFalsy fmFixtureFalsy (fun _ => false)).1
      (Or.inr (Or.inl (by decide))),
   (c10_falsiness_guards [permFixture] amFixtureFalsy fmFixtureFalsy (fun _ => false)).2
      (Or.inr (Or.inr (Or.inl (by decide))))⟩

/-- Claim C9: the action-toggle apply step is idempotent.  Against the
server model of the external permissions API (create assigns a fresh id,
update replaces the record with the given id), applying a role selection
and, after the snapshot reload, applying the identical selection again
leaves the server state unchanged — in particular every affected
permission row has the same final actions list.  The hypotheses are the
data-model invariants: server-assigned ids are present, unique and below
the fresh-id counter, and the selection (a JS object keyed by role id) has
pairwise-distinct role ids. -/
theorem c9_apply_idempotent (perms0 : List Permission) (fid fid' m : Nat) (a : String)
    (sel : List (Nat × Bool)) (hWF : WellFormedPerms perms0 fid)
    (hnd : (sel.map Prod.fst).Nodup) :
    secondApply perms0 fid fid' m a sel = firstApply perms0 fid m a sel ∧
    ∀ re ∈ sel,
      (permMap (secondApply perms0 fid fid' m a sel) re.1 m).map Permission.actions =
        (permMap (firstApply perms0 fid m a sel) re.1 m).map Permission.actions := by
  obtain ⟨hsome0, hnd0, hlt0⟩ := hWF
  have hks : KeyStable perms0 perms0 := by
    intro p hp q hq k hpk hqk
    have hpq : p = q := ids_unique hnd0 hp hq hpk hqk
    rw [hpq]
    exact ⟨rfl, rfl⟩
  obtain ⟨iA, iB, iC, iD, iE, iF, iG⟩ :=
    runSel_spec perms0 m a hnd0 hsome0 sel perms0 fid hsome0 hnd0 hlt0 hlt0 hks hnd
      (fun _ _ => rfl)
  have hmain : serverRun (serverRun perms0 fid (applyReqs perms0 m a sel)).1 fid'
      (applyReqs (serverRun perms0 fid (applyReqs perms0 m a sel)).1 m a sel) =
      ((serverRun perms0 fid (applyReqs perms0 m a sel)).1, fid') := by
    apply serverRun_identity _ m a iB iC
    intro re hre
    obtain ⟨r, e⟩ := re
    have hout := iA (r, e) hre
    cases hpm0 : permMap perms0 r m with
    | none =>
        cases e with
        | false =>
            left
            have hres : permMap (serverRun perms0 fid (applyReqs perms0 m a sel)).1
                r m = none :=
              roleOutcome_elim_none_disabled hpm0 hout
            show applyRoleReqs (serverRun perms0 fid (applyReqs perms0 m a sel)).1
              m a r false = []
            unfold applyRoleReqs
            rw [hres]
            rfl
        | true =>
            right
            obtain ⟨p1, hres, hact⟩ := roleOutcome_elim_none_enabled hpm0 hout
            refine ⟨p1, hres, ?_⟩
            show applyRoleReqs (serverRun perms0 fid (applyReqs perms0 m a sel)).1
              m a r true = [Request.put p1.id p1]
            unfold applyRoleReqs
            rw [hres]
            show [Request.put p1.id { p1 with actions := newActionsFor p1 a true }] =
              [Request.put p1.id p1]
            have hstab : newActionsFor p1 a true = p1.actions := by
              apply newActionsFor_stable
              apply contains_eq_of_mem_iff
              rw [hact]
              simp
            rw [hstab]
    | some p =>
        right
        have hres0 := roleOutcome_elim_some hpm0 hout
        have hcont0 : ({ p with actions := newActionsFor p a e } :
            Permission).actions.contains a = e :=
          contains_eq_of_mem_iff (mem_newActionsFor p a e)
        generalize hq : ({ p with actions := newActionsFor p a e } : Permission) = p1
          at hres0 hcont0
        refine ⟨p1, hres0, ?_⟩
        show applyRoleReqs (serverRun perms0 fid (applyReqs perms0 m a sel)).1 m a r e =
          [Request.put p1.id p1]
        unfold applyRoleReqs
        rw [hres0]
        show [Request.put p1.id { p1 with actions := newActionsFor p1 a e }] =
          [Request.put p1.id p1]
        rw [newActionsFor_stable hcont0]
  have h12 : secondApply perms0 fid fid' m a sel = firstApply perms0 fid m a sel := by
    unfold secondApply firstApply
    rw [hmain]
  exact ⟨h12, fun re _ => by rw [h12]⟩

/-- Witness for C9 on a concrete input: one existing row (role 1 grants
`read` on module 1) and a selection enabling `update` for roles 1 and 2. -/
theorem c9_apply_idempotent_witness :
    secondApply [permFixture] 2 5 1 "update" [(1, true), (2, true)] =
      firstApply [permFixture] 2 1 "update" [(1, true), (2, true)] ∧
    ∀ re ∈ [(1, true), (2, true)],
      (permMap (secondApply [permFixture] 2 5 1 "update" [(1, true), (2, true)])
          re.1 1).map Permission.actions =
        (permMap (firstApply [permFixture] 2 1 "update" [(1, true), (2, true)])
          re.1 1).map Permission.actions :=
  c9_apply_idempotent [permFixture] 2 5 1 "update" [(1, true), (2, true)]
    ⟨by decide, by decide, by decide⟩ (by decide)

end RoleMatrix
